import Mathlib

/-!
Shallow embedding of the flo_curves 2D geometry core (cubic Bezier curves,
curve sections, fat-line clipping loop state, overlap detection and the
ray-cast edge classifier) together with theorems settling the claims of the
specification against the code.

Machine floats (f64) are modelled as real numbers.  Square roots, divisions
and comparisons are taken over ℝ; the IEEE-specific behaviour of
`f64::signum` around signed zeros and NaN, which one claim is about, is
modelled by an explicit sign-class type.  Parts of the repository that are
not present under `src/` (the `section.rs`, `solve.rs`, `basis.rs`,
`bounds.rs`, `fat_line.rs`, `consts.rs`, `coefficients.rs` and
`graph_path.rs` modules) are modelled from the specification; each such
definition is marked `Modelled from the spec:` in its doc comment.
-/

open Classical

noncomputable section

/- ===================================================================
   n-dimensional coordinates: the `Coordinate` trait of src/src/geo/coordinate.rs.
   A coordinate with `n` components is a function `Fin n → ℝ`.
   =================================================================== -/

/-- Embeds `Coordinate::dot` (src/src/geo/coordinate.rs, lines 72-81): the sum of the
componentwise products of two coordinates. -/
def Coord.dot {n : ℕ} (p q : Fin n → ℝ) : ℝ := ∑ i, p i * q i

/-- Embeds `Coordinate::distance_to` (src/src/geo/coordinate.rs, lines 61-67): the
square root of the dot product of the offset `p - q` with itself. -/
def Coord.distance_to {n : ℕ} (p q : Fin n → ℝ) : ℝ :=
  Real.sqrt (Coord.dot (p - q) (p - q))

/-- Embeds `Coordinate::is_near_to` (src/src/geo/coordinate.rs, lines 138-144): true
when the squared distance is at most `max_distance * max_distance`. -/
def Coord.is_near_to {n : ℕ} (p q : Fin n → ℝ) (max_distance : ℝ) : Prop :=
  Coord.dot (p - q) (p - q) ≤ max_distance * max_distance

/-- Embeds `Coordinate::magnitude` (src/src/geo/coordinate.rs, lines 86-89). -/
def Coord.magnitude {n : ℕ} (p : Fin n → ℝ) : ℝ := Real.sqrt (Coord.dot p p)

/-- Embeds `Coordinate::origin` for the function model: all components zero. -/
def Coord.origin (n : ℕ) : Fin n → ℝ := fun _ => 0

/-- Embeds `Coordinate::to_unit_vector` (src/src/geo/coordinate.rs, lines 94-102):
returns the origin when the magnitude is zero, otherwise scales by the
reciprocal of the magnitude. -/
def Coord.to_unit_vector {n : ℕ} (p : Fin n → ℝ) : Fin n → ℝ :=
  if Coord.magnitude p = 0 then Coord.origin n
  else fun i => p i * (1 / Coord.magnitude p)

/- ===================================================================
   which_side (src/src/line/line.rs, lines 130-145) and the sign classes
   of IEEE f64.
   =================================================================== -/

/-- Sign classes of an IEEE f64 value: strictly negative, negative zero,
positive zero, strictly positive, or NaN (infinities behave like the strict
classes for the operations modelled here). -/
inductive F64Class where
  | negVal : F64Class
  | negZero : F64Class
  | posZero : F64Class
  | posVal : F64Class
  | nanVal : F64Class
deriving DecidableEq

/-- Rust `f64::signum` by sign class: `1.0` for positive values and `+0.0`,
`-1.0` for negative values and `-0.0`, NaN for NaN. -/
def f64_signum_class : F64Class → F64Class
  | .negVal => .negVal
  | .negZero => .negVal
  | .posZero => .posVal
  | .posVal => .posVal
  | .nanVal => .nanVal

/-- The Rust comparison `x < 0.0` on a sign class (false for both signed
zeros and for NaN). -/
def f64_lt_zero : F64Class → Bool
  | .negVal => true
  | _ => false

/-- The Rust comparison `x > 0.0` on a sign class (false for both signed
zeros and for NaN). -/
def f64_gt_zero : F64Class → Bool
  | .posVal => true
  | _ => false

/-- The tail of `Line2D::which_side` (src/src/line/line.rs, lines 130-145):
take `signum` of the cross-product value, then return -1, 1 or 0 by the two
comparisons against 0.0. -/
def which_side_of_class (c : F64Class) : Int :=
  let side := f64_signum_class c
  if f64_lt_zero side then -1 else if f64_gt_zero side then 1 else 0

/-- The cross-product expression of `which_side` over exact arithmetic. -/
def cross2 (p1 p2 p : ℝ × ℝ) : ℝ :=
  (p.1 - p1.1) * (p2.2 - p1.2) - (p.2 - p1.2) * (p2.1 - p1.1)

/-- The sign class of the cross product when the arithmetic is exact: a
subtraction of two equal finite products rounds to `+0.0` in IEEE round to
nearest, so an exact zero is classified as positive zero. -/
def cross_class (p1 p2 p : ℝ × ℝ) : F64Class :=
  if cross2 p1 p2 p < 0 then .negVal
  else if 0 < cross2 p1 p2 p then .posVal
  else .posZero

/-- Embeds `which_side` for a 2D line `(p1, p2)` and a point `p`. -/
def which_side (p1 p2 p : ℝ × ℝ) : Int :=
  which_side_of_class (cross_class p1 p2 p)

/- ===================================================================
   2D points (`Coord2` of src/src/geo/coordinate.rs) and cubic Bezier
   curves (the `Curve` struct of src/src/bezier/curve.rs).
   =================================================================== -/

/-- Embeds `Coord2` subtraction (componentwise). -/
def psub (p q : ℝ × ℝ) : ℝ × ℝ := (p.1 - q.1, p.2 - q.2)

/-- Embeds `Coord2::dot` (src/src/geo/coordinate.rs, lines 374-378). -/
def pdot (p q : ℝ × ℝ) : ℝ := p.1 * q.1 + p.2 * q.2

/-- Embeds `Coordinate::from_smallest_components` for `Coord2`. -/
def pmin (p q : ℝ × ℝ) : ℝ × ℝ := (min p.1 q.1, min p.2 q.2)

/-- Embeds `Coordinate::from_biggest_components` for `Coord2`. -/
def pmax (p q : ℝ × ℝ) : ℝ × ℝ := (max p.1 q.1, max p.2 q.2)

/-- Embeds `Coord2::distance_to` (src/src/geo/coordinate.rs, lines 366-372). -/
def pdist (p q : ℝ × ℝ) : ℝ :=
  Real.sqrt ((q.1 - p.1) * (q.1 - p.1) + (q.2 - p.2) * (q.2 - p.2))

/-- The `Curve` struct of src/src/bezier/curve.rs: a start point, two control
points and an end point. -/
structure CubicBez where
  start_point : ℝ × ℝ
  cp1 : ℝ × ℝ
  cp2 : ℝ × ℝ
  end_point : ℝ × ℝ

/-- Modelled from the spec: basis.rs is not under src/; the glossary gives the
cubic basis `C(t) = (1-t)^3 P0 + 3 (1-t)^2 t C1 + 3 (1-t) t^2 C2 + t^3 P3`,
here for one scalar component with weights `w0 w1 w2 w3`. -/
def basisR (w0 w1 w2 w3 t : ℝ) : ℝ :=
  w0 * (1 - t) ^ 3 + 3 * w1 * (1 - t) ^ 2 * t + 3 * w2 * (1 - t) * t ^ 2 + w3 * t ^ 3

/-- Embeds `BezierCurve::point_at_pos` (src/src/bezier/curve.rs, lines 79-89):
evaluate the cubic basis componentwise. -/
def CubicBez.point_at_pos (c : CubicBez) (t : ℝ) : ℝ × ℝ :=
  (basisR c.start_point.1 c.cp1.1 c.cp2.1 c.end_point.1 t,
   basisR c.start_point.2 c.cp1.2 c.cp2.2 c.end_point.2 t)

/-- Modelled from the spec: section.rs is not under src/; the control points
of a slice of a cubic are obtained by De Casteljau subdivision (spec section
2.3), expressed through the trilinear blossom of the cubic, for one scalar
component. -/
def blossomR (w0 w1 w2 w3 t1 t2 t3 : ℝ) : ℝ :=
  w0 * (1 - t1) * (1 - t2) * (1 - t3) +
    w1 * (t1 * (1 - t2) * (1 - t3) + (1 - t1) * t2 * (1 - t3) + (1 - t1) * (1 - t2) * t3) +
    w2 * (t1 * t2 * (1 - t3) + t1 * (1 - t2) * t3 + (1 - t1) * t2 * t3) +
    w3 * (t1 * t2 * t3)

/-- The trilinear blossom of a cubic curve, componentwise. -/
def CubicBez.blossom (c : CubicBez) (t1 t2 t3 : ℝ) : ℝ × ℝ :=
  (blossomR c.start_point.1 c.cp1.1 c.cp2.1 c.end_point.1 t1 t2 t3,
   blossomR c.start_point.2 c.cp1.2 c.cp2.2 c.end_point.2 t1 t2 t3)

/-- Modelled from the spec: section.rs is not under src/.  Per the data model
(spec section 3) a curve section is a reference to a parent curve plus
`(t_min, t_max)`, and the design notes fix the representation as
`(root, t_min, t_max)` with explicitly composed remappings. -/
structure CurveSection where
  curve : CubicBez
  t_min : ℝ
  t_max : ℝ

/-- Modelled from the spec: section-local parameter to root-curve parameter
(`t_for_t`, spec section 3). -/
def CurveSection.t_for_t (s : CurveSection) (t : ℝ) : ℝ :=
  (s.t_max - s.t_min) * t + s.t_min

/-- Modelled from the spec: root-curve parameter back to section-local
parameter (the inverse of `t_for_t`, spec section 3). -/
def CurveSection.section_t_for_original_t (s : CurveSection) (t : ℝ) : ℝ :=
  (t - s.t_min) / (s.t_max - s.t_min)

/-- The root-curve parameter range covered by a section. -/
def CurveSection.original_curve_t_values (s : CurveSection) : ℝ × ℝ :=
  (s.t_min, s.t_max)

/-- Taking a subsection composes the parameter remapping onto the root curve. -/
def CurveSection.subsection (s : CurveSection) (t1 t2 : ℝ) : CurveSection :=
  ⟨s.curve, s.t_for_t t1, s.t_for_t t2⟩

/-- A section evaluates its root curve through the parameter remapping. -/
def CurveSection.point_at_pos (s : CurveSection) (t : ℝ) : ℝ × ℝ :=
  s.curve.point_at_pos (s.t_for_t t)

/-- The start point of a section: the root curve at `t_min`. -/
def CurveSection.start_point (s : CurveSection) : ℝ × ℝ :=
  s.curve.point_at_pos s.t_min

/-- The end point of a section: the root curve at `t_max`. -/
def CurveSection.end_point (s : CurveSection) : ℝ × ℝ :=
  s.curve.point_at_pos s.t_max

/-- The control points of a section via the blossom at
`(t_min, t_min, t_max)` and `(t_min, t_max, t_max)`. -/
def CurveSection.control_points (s : CurveSection) : (ℝ × ℝ) × (ℝ × ℝ) :=
  (s.curve.blossom s.t_min s.t_min s.t_max, s.curve.blossom s.t_min s.t_max s.t_max)

/-- Modelled from the spec: section.rs is not under src/; a section is tiny
when its parameter range is degenerate. -/
def CurveSection.is_tiny (s : CurveSection) : Prop := s.t_min = s.t_max

/-- Embeds `curve_hull_length_sq` (src/src/bezier/intersection/curve_curve_clip.rs,
lines 12-26): zero for a tiny section, otherwise the sum of the squared hull
offsets. -/
def curve_hull_length_sq (s : CurveSection) : ℝ :=
  if s.is_tiny then 0
  else
    let start := s.start_point
    let e := s.end_point
    let cps := s.control_points
    let offset1 := psub cps.1 start
    let offset2 := psub cps.2 cps.1
    let offset3 := psub cps.2 e
    pdot offset1 offset1 + pdot offset2 offset2 + pdot offset3 offset3

/- ===================================================================
   Axis-aligned bounding boxes (spec section 2.2; the geo bounds module is
   not under src/) and `fast_bounding_box` (src/src/bezier/curve.rs).
   =================================================================== -/

/-- Modelled from the spec: an axis-aligned rectangle held as componentwise
min and max corners. -/
structure Bounds where
  bmin : ℝ × ℝ
  bmax : ℝ × ℝ

/-- Modelled from the spec: two boxes overlap when they intersect, i.e. on
each axis the minimum of each box does not exceed the maximum of the other. -/
def Bounds.overlaps (b1 b2 : Bounds) : Prop :=
  b1.bmin.1 ≤ b2.bmax.1 ∧ b2.bmin.1 ≤ b1.bmax.1 ∧
    b1.bmin.2 ≤ b2.bmax.2 ∧ b2.bmin.2 ≤ b1.bmax.2

/-- A box contains a point when the point is between the corners on both
axes. -/
def Bounds.contains_point (b : Bounds) (p : ℝ × ℝ) : Prop :=
  b.bmin.1 ≤ p.1 ∧ p.1 ≤ b.bmax.1 ∧ b.bmin.2 ≤ p.2 ∧ p.2 ≤ b.bmax.2

/-- A box contains another box when it contains its corner range on both
axes. -/
def Bounds.contains_bounds (b1 b2 : Bounds) : Prop :=
  b1.bmin.1 ≤ b2.bmin.1 ∧ b1.bmin.2 ≤ b2.bmin.2 ∧
    b2.bmax.1 ≤ b1.bmax.1 ∧ b2.bmax.2 ≤ b1.bmax.2

/-- Embeds `BezierCurve::fast_bounding_box` (src/src/bezier/curve.rs, lines
141-156) written over the four defining points of a curve: the componentwise
min and max of start, end and the two control points. -/
def fast_bounds_of (start e cp1 cp2 : ℝ × ℝ) : Bounds :=
  ⟨pmin (pmin (pmin start e) cp1) cp2, pmax (pmax (pmax start e) cp1) cp2⟩

/-- Embeds `fast_bounding_box` of a curve section. -/
def CurveSection.fast_bounding_box (s : CurveSection) : Bounds :=
  fast_bounds_of s.start_point s.end_point s.control_points.1 s.control_points.2

/-- Embeds `fast_bounding_box` of a whole cubic curve. -/
def CubicBez.fast_bounding_box (c : CubicBez) : Bounds :=
  fast_bounds_of c.start_point c.end_point c.cp1 c.cp2

/- ===================================================================
   The fat-line clipping loop of curve_intersects_curve_clip_inner
   (src/src/bezier/intersection/curve_curve_clip.rs, lines 229-336).
   The clip primitive (fat_line.rs) and the linear-section fallback
   (curve_line.rs) are not under src/, so one round of the loop is stated
   for an arbitrary clip function and an arbitrary linear-section
   intersector; the theorems quantify over both.
   =================================================================== -/

/-- The `ClipResult` enum of src/src/bezier/intersection/curve_curve_clip.rs,
lines 81-86. -/
inductive ClipResult where
  | noOverlap : ClipResult
  | clipTo (t1 t2 : ℝ) : ClipResult
  | secondCurveIsLinear : ClipResult

/-- The mutable state of the clipping loop: the two current sections and the
hull lengths recorded after the previous round. -/
structure ClipState where
  curve1 : CurveSection
  curve2 : CurveSection
  curve1_last_len : ℝ
  curve2_last_len : ℝ

/-- The outcome of one round of the clipping loop: an early or final return,
a subdivision recursion on one of the curves (the stall rule), or the next
loop state. -/
inductive RoundOutcome where
  | returned (r : List (ℝ × ℝ)) : RoundOutcome
  | subdivideCurve1 (s : ClipState) : RoundOutcome
  | subdivideCurve2 (s : ClipState) : RoundOutcome
  | nextState (s : ClipState) : RoundOutcome

/-- The tail of one loop round (lines 295-335): the accuracy test with the
fast-bounding-box overlap check, then the stall test, then the next state. -/
def clip_round_tail (accuracy_squared : ℝ) (curve1 curve2 : CurveSection)
    (curve1_len curve2_len curve1_last_len curve2_last_len : ℝ) : RoundOutcome :=
  if curve1_len ≤ accuracy_squared ∧ curve2_len ≤ accuracy_squared then
    if curve1.fast_bounding_box.overlaps curve2.fast_bounding_box then
      .returned [((curve1.original_curve_t_values.1 + curve1.original_curve_t_values.2) * 0.5,
                  (curve2.original_curve_t_values.1 + curve2.original_curve_t_values.2) * 0.5)]
    else
      .returned []
  else if curve1_last_len * 0.8 ≤ curve1_len ∧ curve2_last_len * 0.8 ≤ curve2_len then
    if curve1_len / curve1_last_len > curve2_len / curve2_last_len then
      .subdivideCurve1 ⟨curve1, curve2, curve1_len, curve2_len⟩
    else
      .subdivideCurve2 ⟨curve1, curve2, curve1_len, curve2_len⟩
  else
    .nextState ⟨curve1, curve2, curve1_len, curve2_len⟩

/-- The middle of one loop round (lines 271-293): clip curve1 against curve2
unless curve1 is already below the accuracy bound. -/
def clip_round_after2 (clipFn : CurveSection → CurveSection → ClipResult)
    (linFn : CurveSection → CurveSection → List (ℝ × ℝ)) (accuracy_squared : ℝ)
    (curve1 : CurveSection) (curve1_last_len curve2_last_len : ℝ)
    (curve2 : CurveSection) (curve2_len : ℝ) : RoundOutcome :=
  if curve1_last_len > accuracy_squared then
    match clipFn curve1 curve2 with
    | .noOverlap => .returned []
    | .secondCurveIsLinear =>
        .returned ((linFn curve2 curve1).map fun p => (curve1.t_for_t p.2, curve2.t_for_t p.1))
    | .clipTo t1 t2 =>
        let c1 := curve1.subsection t1 t2
        clip_round_tail accuracy_squared c1 curve2 (curve_hull_length_sq c1) curve2_len
          curve1_last_len curve2_last_len
  else
    clip_round_tail accuracy_squared curve1 curve2 curve1_last_len curve2_len
      curve1_last_len curve2_last_len

/-- One round of the clipping loop (lines 246-336): clip curve2 against
curve1 unless curve2 is already below the accuracy bound, then the rest of
the round. -/
def clip_round (clipFn : CurveSection → CurveSection → ClipResult)
    (linFn : CurveSection → CurveSection → List (ℝ × ℝ)) (accuracy_squared : ℝ)
    (st : ClipState) : RoundOutcome :=
  if st.curve2_last_len > accuracy_squared then
    match clipFn st.curve2 st.curve1 with
    | .noOverlap => .returned []
    | .secondCurveIsLinear =>
        .returned ((linFn st.curve1 st.curve2).map fun p =>
          (st.curve1.t_for_t p.1, st.curve2.t_for_t p.2))
    | .clipTo t1 t2 =>
        let c2 := st.curve2.subsection t1 t2
        clip_round_after2 clipFn linFn accuracy_squared st.curve1 st.curve1_last_len
          st.curve2_last_len c2 (curve_hull_length_sq c2)
  else
    clip_round_after2 clipFn linFn accuracy_squared st.curve1 st.curve1_last_len
      st.curve2_last_len st.curve2 st.curve2_last_len

/-- The degenerate cubic whose four defining points all sit at the origin. -/
def originCurve : CubicBez := ⟨(0, 0), (0, 0), (0, 0), (0, 0)⟩

/-- The full section of the origin curve. -/
def originSection : CurveSection := ⟨originCurve, 0, 1⟩

/- ===================================================================
   join_subsections (src/src/bezier/intersection/curve_curve_clip.rs,
   lines 148-198).
   =================================================================== -/

/-- Embeds `join_subsections`: combine the intersection lists of two sibling
recursions, dropping the first entry of the right list when it repeats the
last entry of the left list (parameters within 0.1 of each other on the
pivot section, corresponding points within the accuracy bound). -/
def join_subsections (curve1 : CurveSection) (left right : List (ℝ × ℝ))
    (accuracy_squared : ℝ) : List (ℝ × ℝ) :=
  match left, right with
  | [], _ => right
  | l, [] => l
  | l1 :: ltail, r1 :: rtail =>
    let leftPair := List.getLastD ltail l1
    let left_t1 := curve1.section_t_for_original_t leftPair.1
    let right_t1 := curve1.section_t_for_original_t r1.1
    if |right_t1 - left_t1| < 0.1 then
      let p1 := curve1.point_at_pos left_t1
      let p2 := curve1.point_at_pos right_t1
      let offset := psub p2 p1
      let distance_squared := pdot offset offset
      if distance_squared ≤ accuracy_squared * 2 then (l1 :: ltail) ++ rtail
      else (l1 :: ltail) ++ (r1 :: rtail)
    else (l1 :: ltail) ++ (r1 :: rtail)

/- ===================================================================
   overlapping_region (src/src/bezier/overlaps.rs).  The root solver
   (`t_for_point`, backed by the absent solve.rs) is passed in as a
   parameter; the tolerances come from the absent consts.rs and are
   modelled from spec section 5.
   =================================================================== -/

/-- Modelled from the spec: consts.rs is not under src/; the small
t-distance tolerance is about 1e-6 (spec section 5). -/
def SMALL_T_DISTANCE : ℝ := 1e-6

/-- Modelled from the spec: consts.rs is not under src/; the small spatial
distance tolerance is about 0.01 (spec section 5). -/
def SMALL_DISTANCE : ℝ := 0.01

/-- Modelled from the spec: line/coefficients.rs is not under src/; the
normalised implicit form `(a, b, c)` of the line through two points with
`a^2 + b^2 = 1` (spec sections 2.1 and 3). -/
def line_coefficients_2d (p1 p2 : ℝ × ℝ) : ℝ × ℝ × ℝ :=
  let m := Real.sqrt ((p2.1 - p1.1) * (p2.1 - p1.1) + (p2.2 - p1.2) * (p2.2 - p1.2))
  let a := (p1.2 - p2.2) / m
  let b := (p2.1 - p1.1) / m
  (a, b, -(a * p1.1 + b * p1.2))

/-- The `is_collinear` helper of overlapping_region (src/src/bezier/overlaps.rs,
lines 54-57): the point evaluates the implicit form to less than
`SMALL_DISTANCE` in absolute value. -/
def is_collinear (p : ℝ × ℝ) (co : ℝ × ℝ × ℝ) : Prop :=
  |co.1 * p.1 + co.2.1 * p.2 + co.2.2| < SMALL_DISTANCE

/-- The `close_enough` helper of overlapping_region (lines 75-78): the two
points are within `SMALL_DISTANCE` of each other (squared comparison, as in
`is_near_to`). -/
def close_enough (p1 p2 : ℝ × ℝ) : Prop :=
  pdot (psub p1 p2) (psub p1 p2) ≤ SMALL_DISTANCE * SMALL_DISTANCE

/-- The `control_points` helper of overlapping_region (lines 81-92): the
control points of the section between `t1` and `t2`, swapped when the range
runs backwards. -/
def overlap_control_points (c : CubicBez) (t1 t2 : ℝ) : (ℝ × ℝ) × (ℝ × ℝ) :=
  if t2 < t1 then
    let cps := (CurveSection.mk c t2 t1).control_points
    (cps.2, cps.1)
  else (CurveSection.mk c t1 t2).control_points

/-- The endpoint-matching phase of overlapping_region (lines 17-46): finds
the parameter ranges `((c1_t1, c1_t2), (c2_t1, c2_t2))` from where the
endpoints of each curve land on the other, or nothing when an endpoint matches
neither way.  `solve1` and `solve2` are the `t_for_point` oracles of curve1
and curve2 (modelled from the spec: solve.rs is not under src/). -/
def overlap_ranges (c1 c2 : CubicBez) (solve1 solve2 : ℝ × ℝ → Option ℝ) :
    Option ((ℝ × ℝ) × (ℝ × ℝ)) :=
  let first :=
    match solve1 c2.start_point with
    | some t => some (t, (0 : ℝ))
    | none =>
      match solve2 c1.start_point with
      | some t => some ((0 : ℝ), t)
      | none => none
  match first with
  | none => none
  | some st =>
    match solve1 c2.end_point with
    | some t => some ((st.1, t), (st.2, 1))
    | none =>
      match solve2 c1.end_point with
      | some t => some ((st.1, 1), (st.2, t))
      | none => none

/-- The part of overlapping_region after the single-point-touch rejection
(lines 53-107): accept if everything is collinear, otherwise compare the
control points of the matched sections. -/
def overlap_region_checked (c1 c2 : CubicBez) (r : (ℝ × ℝ) × (ℝ × ℝ)) :
    Option ((ℝ × ℝ) × (ℝ × ℝ)) :=
  let coeff := line_coefficients_2d c1.start_point c1.end_point
  if is_collinear c1.cp1 coeff ∧ is_collinear c1.cp2 coeff ∧
      is_collinear c2.start_point coeff ∧ is_collinear c2.end_point coeff ∧
      is_collinear c2.cp1 coeff ∧ is_collinear c2.cp2 coeff then
    some r
  else
    let c2cps :=
      if r.2.1 ≠ 0 ∨ r.2.2 ≠ 1 then overlap_control_points c2 r.2.1 r.2.2
      else (c2.cp1, c2.cp2)
    let c1cps := overlap_control_points c1 r.1.1 r.1.2
    if close_enough c1cps.1 c2cps.1 ∧ close_enough c1cps.2 c2cps.2 then some r
    else none

/-- Embeds `overlapping_region` (src/src/bezier/overlaps.rs, lines 9-108): endpoint
matching, then the single-point-touch rejection of lines 48-51 — which
rejects when EITHER parameter range is degenerate — then the collinearity
and control-point comparison. -/
def overlapping_region (c1 c2 : CubicBez) (solve1 solve2 : ℝ × ℝ → Option ℝ) :
    Option ((ℝ × ℝ) × (ℝ × ℝ)) :=
  match overlap_ranges c1 c2 solve1 solve2 with
  | none => none
  | some r =>
    if |r.1.1 - r.1.2| < SMALL_T_DISTANCE ∨ |r.2.1 - r.2.2| < SMALL_T_DISTANCE then none
    else overlap_region_checked c1 c2 r

/-- A straight uniformly parameterised segment from (0,0) to (1,0). -/
def segCurve : CubicBez := ⟨(0, 0), (1 / 3, 0), (2 / 3, 0), (1, 0)⟩

/-- The degenerate cubic sitting entirely at (0.5, 0), a point on segCurve. -/
def midPointCurve : CubicBez := ⟨(0.5, 0), (0.5, 0), (0.5, 0), (0.5, 0)⟩

/-- A faithful `t_for_point` oracle for segCurve restricted to the probe
points that occur: (0.5, 0) lies on segCurve at t = 0.5. -/
def segSolve : ℝ × ℝ → Option ℝ := fun p => if p = ((0.5 : ℝ), (0 : ℝ)) then some 0.5 else none

/- ===================================================================
   The ray-cast edge classifier
   (src/src/bezier/path/arithmetic/ray_cast.rs, set_edge_kinds_by_ray_casting,
   lines 94-224; the per-collision classification loop is lines 154-216).
   The graph structure itself (graph_path.rs) is not under src/ and is
   modelled abstractly from the spec: edges are indices, each carries a
   label and a normal, and `set_edge_kind_connected` propagates a kind to a
   connected run of edges.
   =================================================================== -/

/-- Embeds `GraphPathEdgeKind` (spec section 3): Uncategorised, the transient
Visited marker, and the terminal Interior and Exterior kinds. -/
inductive GraphPathEdgeKind where
  | uncategorised : GraphPathEdgeKind
  | visited : GraphPathEdgeKind
  | interior : GraphPathEdgeKind
  | exterior : GraphPathEdgeKind
deriving DecidableEq

/-- Embeds `PathDirection` (src/src/bezier/path/arithmetic/ray_cast.rs, lines
14-18). -/
inductive PathDirection where
  | clockwise : PathDirection
  | anticlockwise : PathDirection
deriving DecidableEq

/-- Embeds `PathLabel` (src/src/bezier/path/arithmetic/ray_cast.rs, line 40): the
path number and the winding direction. -/
structure PathLabel where
  path_number : ℕ
  direction : PathDirection

/-- Modelled from the spec: graph_path.rs is not under src/.  The data the
classification loop reads from the graph: the label of each edge, its normal at a
curve parameter, and the connected run reached by `set_edge_kind_connected`
(spec section 4.7: walk edges across non-intersection points). -/
structure RayCastGraph where
  edgeLabel : ℕ → PathLabel
  edgeNormal : ℕ → ℝ → ℝ × ℝ
  connectedTo : ℕ → List ℕ

/-- One entry of the collision list consumed by the classification loop: the
collision (whether it is an intersection and which edge it struck) and the
curve parameter. -/
structure RayCollision where
  is_intersection : Bool
  edge : ℕ
  curve_t : ℝ

/-- The mutable state of the classification loop: the per-edge kinds and the
per-path crossing counters. -/
structure RayCastState where
  kinds : ℕ → GraphPathEdgeKind
  crossings : List ℤ

/-- The `while path_crossings.len() <= path_number` extension loop (lines
171-173): pad the crossing vector with zeros up to index `n`. -/
def extend_crossings (l : List ℤ) (n : ℕ) : List ℤ :=
  if l.length ≤ n then l ++ List.replicate (n + 1 - l.length) 0 else l

/-- Bump entry `n` of the crossing vector by `delta`. -/
def bump_crossings (l : List ℤ) (n : ℕ) (delta : ℤ) : List ℤ :=
  l.set n (l.getD n 0 + delta)

/-- Rust `f64::signum` cast to i32 over the real model: -1 for negative
values, otherwise 1 (an exact zero is `+0.0`, whose signum is `1.0`). -/
def rust_signum_i32 (d : ℝ) : ℤ := if d < 0 then -1 else 1

/-- Modelled from the spec: `set_edge_kind_connected` lives in the absent
graph_path.rs; it sets the kind of the edge and of every edge in its
connected run. -/
def set_edge_kind_connected (g : RayCastGraph) (kinds : ℕ → GraphPathEdgeKind) (e : ℕ)
    (k : GraphPathEdgeKind) : ℕ → GraphPathEdgeKind :=
  fun x => if x = e ∨ x ∈ g.connectedTo e then k else kinds x

/-- The crossing vector after the extension step, on which `was_inside` is
evaluated (lines 171-175). -/
def crossings_before (g : RayCastGraph) (st : RayCastState) (c : RayCollision) : List ℤ :=
  extend_crossings st.crossings (g.edgeLabel c.edge).path_number

/-- The signed crossing direction of a collision: the sign of the dot
product of the ray direction with the edge normal, flipped for
anticlockwise paths (lines 164-168). -/
def collision_side (g : RayCastGraph) (ray_direction : ℝ × ℝ) (c : RayCollision) : ℤ :=
  let side := rust_signum_i32 (pdot ray_direction (g.edgeNormal c.edge c.curve_t))
  match (g.edgeLabel c.edge).direction with
  | .clockwise => side
  | .anticlockwise => -side

/-- The crossing vector after the update for a collision, on which
`is_inside` is evaluated afterwards (lines 176-181). -/
def crossings_after (g : RayCastGraph) (ray_direction : ℝ × ℝ) (st : RayCastState)
    (c : RayCollision) : List ℤ :=
  let l := crossings_before g st c
  let side := collision_side g ray_direction c
  if side < 0 then bump_crossings l (g.edgeLabel c.edge).path_number (-1)
  else if side > 0 then bump_crossings l (g.edgeLabel c.edge).path_number 1
  else l

/-- One step of the classification loop over the collision list (lines
155-216): update the crossing counters, then classify the struck edge by
whether `is_inside` changed across the crossing, skipping intersections and
collisions with `curve_t` outside (0.1, 0.9); the diagnostic branch of lines
202-215 forces a missed edge to Exterior. -/
def classify_step (g : RayCastGraph) (is_inside : List ℤ → Bool) (ray_direction : ℝ × ℝ)
    (st : RayCastState) (c : RayCollision) : RayCastState :=
  let was_inside := is_inside (crossings_before g st c)
  let crossings := crossings_after g ray_direction st c
  let now_inside := is_inside crossings
  let edge_kind := st.kinds c.edge
  let kinds :=
    if c.is_intersection = false ∧
        (edge_kind = GraphPathEdgeKind.uncategorised ∨ edge_kind = GraphPathEdgeKind.visited) then
      if 0.1 < c.curve_t ∧ c.curve_t < 0.9 then
        if xor was_inside now_inside then
          set_edge_kind_connected g st.kinds c.edge .exterior
        else
          set_edge_kind_connected g st.kinds c.edge .interior
      else st.kinds
    else if c.is_intersection = false ∧ 0.1 < c.curve_t ∧ c.curve_t < 0.9 then
      if xor was_inside now_inside then
        if edge_kind ≠ GraphPathEdgeKind.exterior then
          set_edge_kind_connected g st.kinds c.edge .exterior
        else st.kinds
      else st.kinds
    else st.kinds
  ⟨kinds, crossings⟩

/-- The classification loop folds `classify_step` over the ordered collision
list (lines 155-216). -/
def classify_collisions (g : RayCastGraph) (is_inside : List ℤ → Bool)
    (ray_direction : ℝ × ℝ) (st : RayCastState) (cs : List RayCollision) : RayCastState :=
  cs.foldl (classify_step g is_inside ray_direction) st

/-- A concrete one-edge graph for the C4 witness. -/
def witnessGraph : RayCastGraph :=
  ⟨fun _ => ⟨0, PathDirection.clockwise⟩, fun _ _ => (0, 1), fun _ => []⟩

/- ===================================================================
   The tight bounding box (claim C6).  bounds.rs is not under src/:
   `bounding_box4` and `find_extremities` are modelled from the spec
   (section 2.3, "extremity-finding by derivative root solving, tight and
   fast bounding boxes"): evaluate the curve at the endpoints and at the
   roots of the derivative inside [0, 1] and take the componentwise
   min/max.
   =================================================================== -/

/-- The leading coefficient of the derivative of the scalar cubic basis. -/
def dqa (w0 w1 w2 w3 : ℝ) : ℝ := 3 * (-w0 + 3 * w1 - 3 * w2 + w3)

/-- The linear coefficient of the derivative of the scalar cubic basis. -/
def dqb (w0 w1 w2 w3 : ℝ) : ℝ := 6 * (w0 - 2 * w1 + w2)

/-- The constant coefficient of the derivative of the scalar cubic basis. -/
def dqc (w0 w1 w2 w3 : ℝ) : ℝ := 3 * (w1 - w0)

/-- Modelled from the spec: the quadratic root solver backing
`find_extremities` returns every real root of `a t^2 + b t + c`. -/
def quad_roots (a b c : ℝ) : List ℝ :=
  if a ≠ 0 then
    if b * b - 4 * a * c < 0 then []
    else
      [(-b + Real.sqrt (b * b - 4 * a * c)) / (2 * a),
       (-b - Real.sqrt (b * b - 4 * a * c)) / (2 * a)]
  else if b ≠ 0 then [-c / b]
  else []

/-- Modelled from the spec: `find_extremities` for one scalar component:
the roots of the derivative quadratic that lie within [0, 1]. -/
def extremities1 (w0 w1 w2 w3 : ℝ) : List ℝ :=
  (quad_roots (dqa w0 w1 w2 w3) (dqb w0 w1 w2 w3) (dqc w0 w1 w2 w3)).filter
    fun t => decide (0 ≤ t ∧ t ≤ 1)

/-- The derivative roots of the x component of a cubic within [0, 1]. -/
def extremitiesX (c : CubicBez) : List ℝ :=
  extremities1 c.start_point.1 c.cp1.1 c.cp2.1 c.end_point.1

/-- The derivative roots of the y component of a cubic within [0, 1]. -/
def extremitiesY (c : CubicBez) : List ℝ :=
  extremities1 c.start_point.2 c.cp1.2 c.cp2.2 c.end_point.2

/-- The candidate parameters the tight box evaluates beyond t = 0: the other
endpoint and the extremities of both components. -/
def bbox_candidate_ts (c : CubicBez) : List ℝ :=
  1 :: (extremitiesX c ++ extremitiesY c)

/-- Modelled from the spec: `bounding_box4` of the absent bounds.rs
(`BezierCurve::bounding_box`, src/src/bezier/curve.rs lines 127-134,
delegates to it): the componentwise min/max of the curve evaluated at the
endpoints and at every extremity. -/
def CubicBez.bounding_box (c : CubicBez) : Bounds :=
  let p0 := c.point_at_pos 0
  let rest := (bbox_candidate_ts c).map c.point_at_pos
  ⟨rest.foldr pmin p0, rest.foldr pmax p0⟩

/- ===================================================================
   Theorems: supporting lemmas, the claim theorems, their witnesses and
   the counterexample, in the order of the development above.
   =================================================================== -/

lemma Coord.dot_self_nonneg {n : ℕ} (p : Fin n → ℝ) : 0 ≤ Coord.dot p p :=
  Finset.sum_nonneg fun i _ => mul_self_nonneg (p i)

lemma Coord.dot_sub_symm {n : ℕ} (p q : Fin n → ℝ) :
    Coord.dot (p - q) (p - q) = Coord.dot (q - p) (q - p) := by
  unfold Coord.dot
  refine Finset.sum_congr rfl fun i _ => ?_
  simp only [Pi.sub_apply]
  ring

/-- C8: for coordinates `p`, `q` and any `ε ≥ 0`, `is_near_to(p, q, ε)` holds
exactly when `distance_to(p, q) ≤ ε`; and `distance_to` is symmetric and
non-negative. -/
theorem is_near_to_iff_distance_le {n : ℕ} (p q : Fin n → ℝ) (ε : ℝ) (hε : 0 ≤ ε) :
    (Coord.is_near_to p q ε ↔ Coord.distance_to p q ≤ ε) ∧
      Coord.distance_to p q = Coord.distance_to q p ∧ 0 ≤ Coord.distance_to p q := by
  refine ⟨?_, ?_, Real.sqrt_nonneg _⟩
  · unfold Coord.is_near_to Coord.distance_to
    rw [Real.sqrt_le_left hε, sq]
  · unfold Coord.distance_to
    rw [Coord.dot_sub_symm]

/-- C8 witness: the equivalence instantiated at a pair of concrete
one-dimensional coordinates and tolerance 1. -/
theorem is_near_to_iff_distance_le_witness :
    (Coord.is_near_to (fun _ : Fin 1 => (3 : ℝ)) (fun _ => 3) 1 ↔
      Coord.distance_to (fun _ : Fin 1 => (3 : ℝ)) (fun _ => 3) ≤ 1) :=
  (is_near_to_iff_distance_le (fun _ => 3) (fun _ => 3) 1 (by norm_num)).1

lemma Coord.dot_smul_self {n : ℕ} (p : Fin n → ℝ) (c : ℝ) :
    Coord.dot (fun i => p i * c) (fun i => p i * c) = c ^ 2 * Coord.dot p p := by
  unfold Coord.dot
  rw [Finset.mul_sum]
  refine Finset.sum_congr rfl fun i _ => ?_
  ring

/-- C10: `to_unit_vector` is total: it returns the origin when the magnitude
is zero, otherwise it scales the vector by the reciprocal of the magnitude
and the result has magnitude exactly 1 (the division is by a nonzero value). -/
theorem to_unit_vector_total {n : ℕ} (v : Fin n → ℝ) :
    (Coord.magnitude v = 0 → Coord.to_unit_vector v = Coord.origin n) ∧
      (Coord.magnitude v ≠ 0 →
        Coord.to_unit_vector v = (fun i => v i * (1 / Coord.magnitude v)) ∧
          Coord.magnitude (Coord.to_unit_vector v) = 1) := by
  constructor
  · intro h
    unfold Coord.to_unit_vector
    rw [if_pos h]
  · intro h
    have hval : Coord.to_unit_vector v = fun i => v i * (1 / Coord.magnitude v) := by
      unfold Coord.to_unit_vector
      rw [if_neg h]
    refine ⟨hval, ?_⟩
    have hpos : 0 < Coord.magnitude v :=
      lt_of_le_of_ne (Real.sqrt_nonneg _) (Ne.symm h)
    rw [hval]
    unfold Coord.magnitude
    rw [Coord.dot_smul_self, Real.sqrt_mul (sq_nonneg _), Real.sqrt_sq (by positivity)]
    have hmag : Real.sqrt (Coord.dot v v) = Coord.magnitude v := rfl
    rw [hmag]
    field_simp

/-- C10 witness: the unit vector of the concrete vector (3, 4) has
magnitude 1. -/
theorem to_unit_vector_total_witness :
    Coord.magnitude (Coord.to_unit_vector ![(3 : ℝ), 4]) = 1 := by
  have h : Coord.magnitude ![(3 : ℝ), 4] ≠ 0 := by
    unfold Coord.magnitude Coord.dot
    rw [Real.sqrt_ne_zero']
    simp [Fin.sum_univ_two]
    norm_num
  exact ((to_unit_vector_total ![(3 : ℝ), 4]).2 h).2

/-- C9: a point exactly on the infinite line (cross product zero) is reported
on side 1, because `f64::signum` maps `+0.0` to `1.0`; a negative-zero cross
product gives -1, and the only sign class on which `which_side` returns 0 is
NaN. -/
theorem which_side_never_zero_on_line :
    (∀ p1 p2 p : ℝ × ℝ, cross2 p1 p2 p = 0 → which_side p1 p2 p = 1) ∧
      which_side_of_class .posZero = 1 ∧ which_side_of_class .negZero = -1 ∧
        ∀ c : F64Class, which_side_of_class c = 0 ↔ c = .nanVal := by
  refine ⟨?_, rfl, rfl, ?_⟩
  · intro p1 p2 p h
    unfold which_side cross_class
    rw [if_neg (by rw [h]; exact lt_irrefl 0), if_neg (by rw [h]; exact lt_irrefl 0)]
    rfl
  · intro c
    cases c <;> simp [which_side_of_class, f64_signum_class, f64_lt_zero, f64_gt_zero]

/-- C9 witness: the point (2, 0) lies exactly on the line through (0, 0) and
(1, 0) and `which_side` reports 1, not 0. -/
theorem which_side_never_zero_on_line_witness :
    which_side ((0 : ℝ), (0 : ℝ)) (1, 0) (2, 0) = 1 :=
  which_side_never_zero_on_line.1 _ _ _ (by norm_num [cross2])

/-- C1: when the clipping iteration reaches a state in which the
control-polygon squared lengths of both sections are at most `ε^2`, the round returns exactly
one pair holding the midpoints of the two remaining root-parameter ranges if
the fast axis-aligned bounding boxes of the sections overlap, and the empty
list otherwise.  This holds for every clip primitive and every
linear-section intersector, since neither is consulted. -/
theorem clip_round_terminates (clipFn : CurveSection → CurveSection → ClipResult)
    (linFn : CurveSection → CurveSection → List (ℝ × ℝ)) (ε : ℝ) (hε : 0 < ε)
    (st : ClipState) (h1 : st.curve1_last_len ≤ ε * ε) (h2 : st.curve2_last_len ≤ ε * ε) :
    (st.curve1.fast_bounding_box.overlaps st.curve2.fast_bounding_box →
        clip_round clipFn linFn (ε * ε) st =
          .returned [((st.curve1.t_min + st.curve1.t_max) * 0.5,
                      (st.curve2.t_min + st.curve2.t_max) * 0.5)]) ∧
      (¬ st.curve1.fast_bounding_box.overlaps st.curve2.fast_bounding_box →
        clip_round clipFn linFn (ε * ε) st = .returned []) := by
  have e2 : ¬ st.curve2_last_len > ε * ε := not_lt.mpr h2
  have e1 : ¬ st.curve1_last_len > ε * ε := not_lt.mpr h1
  constructor
  · intro hov
    unfold clip_round
    rw [if_neg e2]
    unfold clip_round_after2
    rw [if_neg e1]
    unfold clip_round_tail
    rw [if_pos ⟨h1, h2⟩, if_pos hov]
    rfl
  · intro hov
    unfold clip_round
    rw [if_neg e2]
    unfold clip_round_after2
    rw [if_neg e1]
    unfold clip_round_tail
    rw [if_pos ⟨h1, h2⟩, if_neg hov]

/-- C1 witness: at a terminal state over two coincident degenerate sections
(with hull lengths 0 and accuracy 1) the round returns the single pair of
range midpoints. -/
theorem clip_round_terminates_witness :
    clip_round (fun _ _ => ClipResult.noOverlap) (fun _ _ => []) ((1 : ℝ) * 1)
        ⟨originSection, originSection, 0, 0⟩ =
      .returned [(((0 : ℝ) + 1) * 0.5, ((0 : ℝ) + 1) * 0.5)] := by
  refine (clip_round_terminates _ _ 1 (by norm_num) ⟨originSection, originSection, 0, 0⟩
    (by norm_num) (by norm_num)).1 ?_
  unfold Bounds.overlaps CurveSection.fast_bounding_box fast_bounds_of CurveSection.start_point
  unfold CurveSection.end_point CurveSection.control_points originSection originCurve
  norm_num [pmin, pmax, CubicBez.point_at_pos, CubicBez.blossom, basisR, blossomR]

/-- C3: for non-empty lists the join drops the first pair of the right list
exactly when the two parameters, mapped into the local
parameter space of the pivot section, differ by less than 0.1 and the corresponding points on the
pivot curve are within distance `sqrt 2 * ε`; otherwise it keeps every pair
of both lists. -/
theorem join_subsections_dedup (curve1 : CurveSection) (l1 : ℝ × ℝ) (ltail : List (ℝ × ℝ))
    (r1 : ℝ × ℝ) (rtail : List (ℝ × ℝ)) (ε : ℝ) (hε : 0 ≤ ε) :
    (|curve1.section_t_for_original_t r1.1 -
        curve1.section_t_for_original_t (List.getLastD ltail l1).1| < 0.1 ∧
      pdist (curve1.point_at_pos (curve1.section_t_for_original_t (List.getLastD ltail l1).1))
          (curve1.point_at_pos (curve1.section_t_for_original_t r1.1)) ≤ Real.sqrt 2 * ε →
        join_subsections curve1 (l1 :: ltail) (r1 :: rtail) (ε * ε) = (l1 :: ltail) ++ rtail) ∧
    (¬ (|curve1.section_t_for_original_t r1.1 -
          curve1.section_t_for_original_t (List.getLastD ltail l1).1| < 0.1 ∧
        pdist (curve1.point_at_pos (curve1.section_t_for_original_t (List.getLastD ltail l1).1))
            (curve1.point_at_pos (curve1.section_t_for_original_t r1.1)) ≤ Real.sqrt 2 * ε) →
        join_subsections curve1 (l1 :: ltail) (r1 :: rtail) (ε * ε) =
          (l1 :: ltail) ++ (r1 :: rtail)) := by
  set lt1 := curve1.section_t_for_original_t (List.getLastD ltail l1).1 with hlt
  set rt1 := curve1.section_t_for_original_t r1.1 with hrt
  set p1 := curve1.point_at_pos lt1 with hp1
  set p2 := curve1.point_at_pos rt1 with hp2
  have hsq : (Real.sqrt 2 * ε) ^ 2 = ε * ε * 2 := by
    rw [mul_pow, Real.sq_sqrt (by norm_num : (0 : ℝ) ≤ 2)]
    ring
  have hdist : pdist p1 p2 ≤ Real.sqrt 2 * ε ↔ pdot (psub p2 p1) (psub p2 p1) ≤ ε * ε * 2 := by
    unfold pdist
    rw [Real.sqrt_le_left (by positivity), hsq]
    unfold psub pdot
    exact Iff.rfl
  have hjoin : join_subsections curve1 (l1 :: ltail) (r1 :: rtail) (ε * ε) =
      if |rt1 - lt1| < 0.1 then
        if pdot (psub p2 p1) (psub p2 p1) ≤ ε * ε * 2 then (l1 :: ltail) ++ rtail
        else (l1 :: ltail) ++ (r1 :: rtail)
      else (l1 :: ltail) ++ (r1 :: rtail) := rfl
  constructor
  · rintro ⟨habs, hnear⟩
    rw [hjoin, if_pos habs, if_pos (hdist.mp hnear)]
  · intro hnot
    rw [hjoin]
    by_cases habs : |rt1 - lt1| < 0.1
    · rw [if_pos habs, if_neg (fun hc => hnot ⟨habs, hdist.mpr hc⟩)]
    · rw [if_neg habs]

/-- C3 witness: on the full section of the origin curve, the parameters 0.3
and 0.31 are closer than 0.1 and the corresponding points coincide, so the
duplicate first entry of the right list is dropped. -/
theorem join_subsections_dedup_witness :
    join_subsections originSection [((0.3 : ℝ), (0.3 : ℝ))] [((0.31 : ℝ), (0.9 : ℝ))]
        ((1 : ℝ) * 1) = [((0.3 : ℝ), (0.3 : ℝ))] := by
  refine (join_subsections_dedup originSection (0.3, 0.3) [] (0.31, 0.9) [] 1
    (by norm_num)).1 ⟨?_, ?_⟩
  · norm_num [CurveSection.section_t_for_original_t, originSection, abs_lt]
  · have hpt : ∀ t : ℝ, originSection.point_at_pos t = (0, 0) := by
      intro t
      norm_num [CurveSection.point_at_pos, CurveSection.t_for_t, originSection, originCurve,
        CubicBez.point_at_pos, basisR]
    rw [hpt, hpt]
    unfold pdist
    norm_num

/-- C2 (amended): when the endpoint matches yield ranges
`((a_t1, a_t2), (b_t1, b_t2))`, overlapping_region rejects as a single-point
touch precisely when AT LEAST ONE of `|a_t1 - a_t2| < SMALL_T_DISTANCE` or
`|b_t1 - b_t2| < SMALL_T_DISTANCE` holds; only when both ranges are
non-degenerate does it proceed to the collinearity and control-point
comparison. -/
theorem overlapping_region_single_point_reject (c1 c2 : CubicBez)
    (solve1 solve2 : ℝ × ℝ → Option ℝ) (r : (ℝ × ℝ) × (ℝ × ℝ))
    (hr : overlap_ranges c1 c2 solve1 solve2 = some r) :
    (|r.1.1 - r.1.2| < SMALL_T_DISTANCE ∨ |r.2.1 - r.2.2| < SMALL_T_DISTANCE →
        overlapping_region c1 c2 solve1 solve2 = none) ∧
      (¬ (|r.1.1 - r.1.2| < SMALL_T_DISTANCE ∨ |r.2.1 - r.2.2| < SMALL_T_DISTANCE) →
        overlapping_region c1 c2 solve1 solve2 = overlap_region_checked c1 c2 r) := by
  constructor
  · intro hdeg
    unfold overlapping_region
    rw [hr]
    exact if_pos hdeg
  · intro hdeg
    unfold overlapping_region
    rw [hr]
    exact if_neg hdeg

/-- C2 counterexample: for segCurve against the point curve at (0.5, 0) the
endpoint matches give ranges ((0.5, 0.5), (0, 1)): the first range is
degenerate and the second is not, so the claimed "both degenerate" condition
fails and the claim predicts that the collinearity comparison runs (which
here would accept); the code instead rejects and returns nothing.  The
oracle is exact: segCurve really passes through (0.5, 0) at t = 0.5. -/
theorem overlapping_region_single_point_counterexample :
    segCurve.point_at_pos 0.5 = ((0.5 : ℝ), (0 : ℝ)) ∧
      overlap_ranges segCurve midPointCurve segSolve (fun _ => none) =
        some ((0.5, 0.5), (0, 1)) ∧
      ¬ (|(0.5 : ℝ) - 0.5| < SMALL_T_DISTANCE ∧ |(0 : ℝ) - 1| < SMALL_T_DISTANCE) ∧
      overlapping_region segCurve midPointCurve segSolve (fun _ => none) = none ∧
      overlap_region_checked segCurve midPointCurve ((0.5, 0.5), (0, 1)) =
        some ((0.5, 0.5), (0, 1)) := by
  have hranges : overlap_ranges segCurve midPointCurve segSolve (fun _ => none) =
      some ((0.5, 0.5), (0, 1)) := by
    unfold overlap_ranges segSolve
    norm_num [segCurve, midPointCurve]
  refine ⟨?_, hranges, ?_, ?_, ?_⟩
  · unfold segCurve CubicBez.point_at_pos basisR
    norm_num
  · intro h
    have := h.2
    rw [SMALL_T_DISTANCE] at this
    rw [abs_of_nonpos (by norm_num)] at this
    norm_num at this
  · unfold overlapping_region
    rw [hranges]
    refine if_pos (Or.inl ?_)
    rw [SMALL_T_DISTANCE]
    norm_num
  · have hco : line_coefficients_2d segCurve.start_point segCurve.end_point = (0, 1, 0) := by
      unfold line_coefficients_2d segCurve
      norm_num
    unfold overlap_region_checked
    rw [hco, if_pos]
    refine ⟨?_, ?_, ?_, ?_, ?_, ?_⟩ <;>
      norm_num [is_collinear, SMALL_DISTANCE, segCurve, midPointCurve]

/-- C2 amended-theorem witness: at the counterexample input the rejection
direction of the amended statement applies and yields the empty result. -/
theorem overlapping_region_single_point_reject_witness :
    overlapping_region segCurve midPointCurve segSolve (fun _ => none) = none := by
  have hranges : overlap_ranges segCurve midPointCurve segSolve (fun _ => none) =
      some ((0.5, 0.5), (0, 1)) := by
    unfold overlap_ranges segSolve
    norm_num [segCurve, midPointCurve]
  refine (overlapping_region_single_point_reject segCurve midPointCurve segSolve
    (fun _ => none) ((0.5, 0.5), (0, 1)) hranges).1 ?_
  left
  rw [SMALL_T_DISTANCE]
  norm_num

/-- C4: for a non-intersection collision whose edge is still Uncategorised
or Visited and whose parameter satisfies `0.1 < curve_t < 0.9`, the step
sets the edge and its connected run to Exterior when `is_inside` evaluated
before and after the crossing update disagree and to Interior when they
agree; any collision with `curve_t ≤ 0.1` or `curve_t ≥ 0.9` leaves every
edge kind unchanged. -/
theorem classify_step_spec (g : RayCastGraph) (is_inside : List ℤ → Bool)
    (ray_direction : ℝ × ℝ) (st : RayCastState) (c : RayCollision)
    (hni : c.is_intersection = false) :
    ((st.kinds c.edge = GraphPathEdgeKind.uncategorised ∨
        st.kinds c.edge = GraphPathEdgeKind.visited) → 0.1 < c.curve_t → c.curve_t < 0.9 →
      (classify_step g is_inside ray_direction st c).kinds =
        set_edge_kind_connected g st.kinds c.edge
          (if is_inside (crossings_before g st c) ≠
              is_inside (crossings_after g ray_direction st c)
            then GraphPathEdgeKind.exterior else GraphPathEdgeKind.interior)) ∧
    (c.curve_t ≤ 0.1 ∨ 0.9 ≤ c.curve_t →
      (classify_step g is_inside ray_direction st c).kinds = st.kinds) := by
  have hk : (classify_step g is_inside ray_direction st c).kinds =
      (if c.is_intersection = false ∧
          (st.kinds c.edge = GraphPathEdgeKind.uncategorised ∨
            st.kinds c.edge = GraphPathEdgeKind.visited) then
        if 0.1 < c.curve_t ∧ c.curve_t < 0.9 then
          if xor (is_inside (crossings_before g st c))
              (is_inside (crossings_after g ray_direction st c)) then
            set_edge_kind_connected g st.kinds c.edge .exterior
          else
            set_edge_kind_connected g st.kinds c.edge .interior
        else st.kinds
      else if c.is_intersection = false ∧ 0.1 < c.curve_t ∧ c.curve_t < 0.9 then
        if xor (is_inside (crossings_before g st c))
            (is_inside (crossings_after g ray_direction st c)) then
          if st.kinds c.edge ≠ GraphPathEdgeKind.exterior then
            set_edge_kind_connected g st.kinds c.edge .exterior
          else st.kinds
        else st.kinds
      else st.kinds) := rfl
  constructor
  · intro hkind h01 h09
    rw [hk, if_pos ⟨hni, hkind⟩, if_pos ⟨h01, h09⟩]
    cases hw : is_inside (crossings_before g st c) <;>
      cases hn : is_inside (crossings_after g ray_direction st c) <;> simp
  · intro hout
    have hmid : ¬ (0.1 < c.curve_t ∧ c.curve_t < 0.9) := by
      rcases hout with h | h
      · exact fun hc => absurd h (not_le.mpr hc.1)
      · exact fun hc => absurd h (not_le.mpr hc.2)
    rw [hk]
    by_cases houter : c.is_intersection = false ∧
        (st.kinds c.edge = GraphPathEdgeKind.uncategorised ∨
          st.kinds c.edge = GraphPathEdgeKind.visited)
    · rw [if_pos houter, if_neg hmid]
    · rw [if_neg houter, if_neg (fun h => hmid h.2)]

/-- C4 witness: on a concrete collision in the open parameter window against
an uncategorised edge, the step rewrites the kinds through
`set_edge_kind_connected` with the inside-flip decision. -/
theorem classify_step_spec_witness :
    (classify_step witnessGraph (fun l => decide (0 < l.headD 0)) (0, 1)
        ⟨fun _ => GraphPathEdgeKind.uncategorised, []⟩ ⟨false, 0, 0.5⟩).kinds =
      set_edge_kind_connected witnessGraph (fun _ => GraphPathEdgeKind.uncategorised) 0
        (if (fun l => decide (0 < l.headD 0)) (crossings_before witnessGraph
              ⟨fun _ => GraphPathEdgeKind.uncategorised, []⟩ ⟨false, 0, 0.5⟩) ≠
            (fun l => decide (0 < l.headD 0)) (crossings_after witnessGraph (0, 1)
              ⟨fun _ => GraphPathEdgeKind.uncategorised, []⟩ ⟨false, 0, 0.5⟩)
          then GraphPathEdgeKind.exterior else GraphPathEdgeKind.interior) :=
  (classify_step_spec witnessGraph (fun l => decide (0 < l.headD 0)) (0, 1)
      ⟨fun _ => GraphPathEdgeKind.uncategorised, []⟩ ⟨false, 0, 0.5⟩ rfl).1
    (Or.inl rfl) (by norm_num) (by norm_num)

lemma hasDerivAt_basisR (w0 w1 w2 w3 t : ℝ) :
    HasDerivAt (fun x => basisR w0 w1 w2 w3 x)
      (dqa w0 w1 w2 w3 * t ^ 2 + dqb w0 w1 w2 w3 * t + dqc w0 w1 w2 w3) t := by
  have h1 := (((hasDerivAt_const t w0).add ((hasDerivAt_id t).const_mul (3 * (w1 - w0)))).add
      ((hasDerivAt_pow 2 t).const_mul (3 * (w0 - 2 * w1 + w2)))).add
      ((hasDerivAt_pow 3 t).const_mul (-w0 + 3 * w1 - 3 * w2 + w3))
  have h2 : HasDerivAt (fun x => basisR w0 w1 w2 w3 x)
      (0 + 3 * (w1 - w0) * 1 + 3 * (w0 - 2 * w1 + w2) * ((2 : ℕ) * t ^ (2 - 1)) +
        (-w0 + 3 * w1 - 3 * w2 + w3) * ((3 : ℕ) * t ^ (3 - 1))) t := by
    refine HasDerivAt.congr_of_eventuallyEq h1 ?_
    filter_upwards with x
    unfold basisR
    simp only [id_eq]
    ring
  have h3 : dqa w0 w1 w2 w3 * t ^ 2 + dqb w0 w1 w2 w3 * t + dqc w0 w1 w2 w3 =
      0 + 3 * (w1 - w0) * 1 + 3 * (w0 - 2 * w1 + w2) * ((2 : ℕ) * t ^ (2 - 1)) +
        (-w0 + 3 * w1 - 3 * w2 + w3) * ((3 : ℕ) * t ^ (3 - 1)) := by
    unfold dqa dqb dqc
    push_cast
    ring
  rw [h3]
  exact h2

lemma quad_roots_complete (a b c x : ℝ) (hx : a * x ^ 2 + b * x + c = 0) :
    x ∈ quad_roots a b c ∨ (a = 0 ∧ b = 0 ∧ c = 0) := by
  by_cases ha : a = 0
  · by_cases hb : b = 0
    · right
      refine ⟨ha, hb, ?_⟩
      rw [ha, hb] at hx
      linarith
    · left
      unfold quad_roots
      rw [if_neg (not_not_intro ha), if_pos hb]
      have hxval : x = -c / b := by
        field_simp
        rw [ha] at hx
        linarith
      simp [hxval]
  · left
    have hd : b * b - 4 * a * c = (2 * a * x + b) * (2 * a * x + b) := by
      linear_combination (-4 * a) * hx
    have hd0 : 0 ≤ b * b - 4 * a * c := hd ▸ mul_self_nonneg _
    have hdisc : discrim a b c =
        Real.sqrt (b * b - 4 * a * c) * Real.sqrt (b * b - 4 * a * c) := by
      rw [discrim, Real.mul_self_sqrt hd0]
      ring
    have hx' : a * (x * x) + b * x + c = 0 := by linear_combination hx
    have hroots := (quadratic_eq_zero_iff ha hdisc x).mp hx'
    unfold quad_roots
    rw [if_pos ha, if_neg (not_lt.mpr hd0)]
    rcases hroots with h | h
    · simp [h]
    · simp [h]

lemma basisR_const (w t : ℝ) : basisR w w w w t = w := by
  unfold basisR
  ring

lemma basisR_le_extreme (w0 w1 w2 w3 t : ℝ) (h0 : 0 ≤ t) (h1 : t ≤ 1) :
    ∃ u, (u = 0 ∨ u = 1 ∨ u ∈ extremities1 w0 w1 w2 w3) ∧
      basisR w0 w1 w2 w3 t ≤ basisR w0 w1 w2 w3 u := by
  have hcont : Continuous (fun x => basisR w0 w1 w2 w3 x) := by
    unfold basisR
    fun_prop
  obtain ⟨x, hxmem, hxmax⟩ := isCompact_Icc.exists_isMaxOn (Set.nonempty_Icc.mpr zero_le_one)
    hcont.continuousOn
  have hval : basisR w0 w1 w2 w3 t ≤ basisR w0 w1 w2 w3 x := hxmax ⟨h0, h1⟩
  by_cases hx0 : x = 0
  · exact ⟨x, Or.inl hx0, hval⟩
  by_cases hx1 : x = 1
  · exact ⟨x, Or.inr (Or.inl hx1), hval⟩
  have hx0' : 0 < x := lt_of_le_of_ne hxmem.1 (Ne.symm hx0)
  have hx1' : x < 1 := lt_of_le_of_ne hxmem.2 hx1
  have hlocal : IsLocalMax (fun y => basisR w0 w1 w2 w3 y) x :=
    hxmax.isLocalMax (Icc_mem_nhds hx0' hx1')
  have hderiv : dqa w0 w1 w2 w3 * x ^ 2 + dqb w0 w1 w2 w3 * x + dqc w0 w1 w2 w3 = 0 :=
    hlocal.hasDerivAt_eq_zero (hasDerivAt_basisR w0 w1 w2 w3 x)
  rcases quad_roots_complete _ _ _ _ hderiv with hmem | ⟨hza, hzb, hzc⟩
  · refine ⟨x, Or.inr (Or.inr ?_), hval⟩
    unfold extremities1
    exact List.mem_filter.mpr ⟨hmem, by simp [hx0'.le, hx1'.le]⟩
  · have hw1 : w1 = w0 := by
      unfold dqc at hzc
      linarith
    have hw2 : w2 = w0 := by
      unfold dqb at hzb
      linarith
    have hw3 : w3 = w0 := by
      unfold dqa at hza
      linarith
    refine ⟨0, Or.inl rfl, ?_⟩
    rw [hw1, hw2, hw3, basisR_const, basisR_const]

lemma basisR_ge_extreme (w0 w1 w2 w3 t : ℝ) (h0 : 0 ≤ t) (h1 : t ≤ 1) :
    ∃ u, (u = 0 ∨ u = 1 ∨ u ∈ extremities1 w0 w1 w2 w3) ∧
      basisR w0 w1 w2 w3 u ≤ basisR w0 w1 w2 w3 t := by
  have hcont : Continuous (fun x => basisR w0 w1 w2 w3 x) := by
    unfold basisR
    fun_prop
  obtain ⟨x, hxmem, hxmin⟩ := isCompact_Icc.exists_isMinOn (Set.nonempty_Icc.mpr zero_le_one)
    hcont.continuousOn
  have hval : basisR w0 w1 w2 w3 x ≤ basisR w0 w1 w2 w3 t := hxmin ⟨h0, h1⟩
  by_cases hx0 : x = 0
  · exact ⟨x, Or.inl hx0, hval⟩
  by_cases hx1 : x = 1
  · exact ⟨x, Or.inr (Or.inl hx1), hval⟩
  have hx0' : 0 < x := lt_of_le_of_ne hxmem.1 (Ne.symm hx0)
  have hx1' : x < 1 := lt_of_le_of_ne hxmem.2 hx1
  have hlocal : IsLocalMin (fun y => basisR w0 w1 w2 w3 y) x :=
    hxmin.isLocalMin (Icc_mem_nhds hx0' hx1')
  have hderiv : dqa w0 w1 w2 w3 * x ^ 2 + dqb w0 w1 w2 w3 * x + dqc w0 w1 w2 w3 = 0 :=
    hlocal.hasDerivAt_eq_zero (hasDerivAt_basisR w0 w1 w2 w3 x)
  rcases quad_roots_complete _ _ _ _ hderiv with hmem | ⟨hza, hzb, hzc⟩
  · refine ⟨x, Or.inr (Or.inr ?_), hval⟩
    unfold extremities1
    exact List.mem_filter.mpr ⟨hmem, by simp [hx0'.le, hx1'.le]⟩
  · have hw1 : w1 = w0 := by
      unfold dqc at hzc
      linarith
    have hw2 : w2 = w0 := by
      unfold dqb at hzb
      linarith
    have hw3 : w3 = w0 := by
      unfold dqa at hza
      linarith
    refine ⟨0, Or.inl rfl, ?_⟩
    rw [hw1, hw2, hw3, basisR_const, basisR_const]

lemma basisR_ge_of_le (w0 w1 w2 w3 t m : ℝ) (h0 : 0 ≤ t) (h1 : t ≤ 1)
    (hm0 : m ≤ w0) (hm1 : m ≤ w1) (hm2 : m ≤ w2) (hm3 : m ≤ w3) :
    m ≤ basisR w0 w1 w2 w3 t := by
  have ht' : 0 ≤ 1 - t := by linarith
  have k0 : 0 ≤ (w0 - m) * (1 - t) ^ 3 := mul_nonneg (by linarith) (pow_nonneg ht' 3)
  have k1 : 0 ≤ 3 * (w1 - m) * ((1 - t) ^ 2 * t) :=
    mul_nonneg (by linarith) (mul_nonneg (pow_nonneg ht' 2) h0)
  have k2 : 0 ≤ 3 * (w2 - m) * ((1 - t) * t ^ 2) :=
    mul_nonneg (by linarith) (mul_nonneg ht' (pow_nonneg h0 2))
  have k3 : 0 ≤ (w3 - m) * t ^ 3 := mul_nonneg (by linarith) (pow_nonneg h0 3)
  have hsplit : basisR w0 w1 w2 w3 t =
      m + ((w0 - m) * (1 - t) ^ 3 + 3 * (w1 - m) * ((1 - t) ^ 2 * t) +
        3 * (w2 - m) * ((1 - t) * t ^ 2) + (w3 - m) * t ^ 3) := by
    unfold basisR
    ring
  rw [hsplit]
  linarith

lemma basisR_le_of_ge (w0 w1 w2 w3 t m : ℝ) (h0 : 0 ≤ t) (h1 : t ≤ 1)
    (hm0 : w0 ≤ m) (hm1 : w1 ≤ m) (hm2 : w2 ≤ m) (hm3 : w3 ≤ m) :
    basisR w0 w1 w2 w3 t ≤ m := by
  have h := basisR_ge_of_le (-w0) (-w1) (-w2) (-w3) t (-m) h0 h1
    (by linarith) (by linarith) (by linarith) (by linarith)
  have hneg : basisR (-w0) (-w1) (-w2) (-w3) t = -basisR w0 w1 w2 w3 t := by
    unfold basisR
    ring
  rw [hneg] at h
  linarith

lemma foldr_pmin_le_init (l : List (ℝ × ℝ)) (init : ℝ × ℝ) :
    (l.foldr pmin init).1 ≤ init.1 ∧ (l.foldr pmin init).2 ≤ init.2 := by
  induction l with
  | nil => exact ⟨le_refl _, le_refl _⟩
  | cons p rest ih =>
    exact ⟨le_trans (min_le_right _ _) ih.1, le_trans (min_le_right _ _) ih.2⟩

lemma foldr_pmin_le_mem (l : List (ℝ × ℝ)) (init p : ℝ × ℝ) (hp : p ∈ l) :
    (l.foldr pmin init).1 ≤ p.1 ∧ (l.foldr pmin init).2 ≤ p.2 := by
  induction l with
  | nil => cases hp
  | cons q rest ih =>
    rcases List.mem_cons.mp hp with h | h
    · subst h
      exact ⟨min_le_left _ _, min_le_left _ _⟩
    · exact ⟨le_trans (min_le_right _ _) (ih h).1, le_trans (min_le_right _ _) (ih h).2⟩

lemma le_foldr_pmin (l : List (ℝ × ℝ)) (init : ℝ × ℝ) (b1 b2 : ℝ)
    (hinit : b1 ≤ init.1 ∧ b2 ≤ init.2) (hl : ∀ p ∈ l, b1 ≤ p.1 ∧ b2 ≤ p.2) :
    b1 ≤ (l.foldr pmin init).1 ∧ b2 ≤ (l.foldr pmin init).2 := by
  induction l with
  | nil => exact hinit
  | cons q rest ih =>
    have hq := hl q (List.mem_cons_self q rest)
    have hr := ih fun p hp => hl p (List.mem_cons_of_mem _ hp)
    exact ⟨le_min hq.1 hr.1, le_min hq.2 hr.2⟩

lemma init_le_foldr_pmax (l : List (ℝ × ℝ)) (init : ℝ × ℝ) :
    init.1 ≤ (l.foldr pmax init).1 ∧ init.2 ≤ (l.foldr pmax init).2 := by
  induction l with
  | nil => exact ⟨le_refl _, le_refl _⟩
  | cons p rest ih =>
    exact ⟨le_trans ih.1 (le_max_right _ _), le_trans ih.2 (le_max_right _ _)⟩

lemma mem_le_foldr_pmax (l : List (ℝ × ℝ)) (init p : ℝ × ℝ) (hp : p ∈ l) :
    p.1 ≤ (l.foldr pmax init).1 ∧ p.2 ≤ (l.foldr pmax init).2 := by
  induction l with
  | nil => cases hp
  | cons q rest ih =>
    rcases List.mem_cons.mp hp with h | h
    · subst h
      exact ⟨le_max_left _ _, le_max_left _ _⟩
    · exact ⟨le_trans (ih h).1 (le_max_right _ _), le_trans (ih h).2 (le_max_right _ _)⟩

lemma foldr_pmax_le (l : List (ℝ × ℝ)) (init : ℝ × ℝ) (b1 b2 : ℝ)
    (hinit : init.1 ≤ b1 ∧ init.2 ≤ b2) (hl : ∀ p ∈ l, p.1 ≤ b1 ∧ p.2 ≤ b2) :
    (l.foldr pmax init).1 ≤ b1 ∧ (l.foldr pmax init).2 ≤ b2 := by
  induction l with
  | nil => exact hinit
  | cons q rest ih =>
    have hq := hl q (List.mem_cons_self q rest)
    have hr := ih fun p hp => hl p (List.mem_cons_of_mem _ hp)
    exact ⟨max_le hq.1 hr.1, max_le hq.2 hr.2⟩

lemma extremities1_mem_Icc (w0 w1 w2 w3 u : ℝ) (hu : u ∈ extremities1 w0 w1 w2 w3) :
    0 ≤ u ∧ u ≤ 1 := by
  unfold extremities1 at hu
  exact of_decide_eq_true (List.mem_filter.mp hu).2

lemma bbox_candidate_ts_mem_Icc (c : CubicBez) (u : ℝ) (hu : u ∈ bbox_candidate_ts c) :
    0 ≤ u ∧ u ≤ 1 := by
  unfold bbox_candidate_ts at hu
  rcases List.mem_cons.mp hu with h | h
  · subst h
    norm_num
  · rcases List.mem_append.mp h with h | h
    · exact extremities1_mem_Icc _ _ _ _ _ h
    · exact extremities1_mem_Icc _ _ _ _ _ h

/-- C6: the tight bounding box contains the curve point at every parameter
in [0, 1], and the fast bounding box (the componentwise min/max of the four
defining points, src/src/bezier/curve.rs lines 141-156) contains the tight
bounding box. -/
theorem bounding_box_sound (c : CubicBez) (t : ℝ) (h0 : 0 ≤ t) (h1 : t ≤ 1) :
    c.bounding_box.contains_point (c.point_at_pos t) ∧
      c.fast_bounding_box.contains_bounds c.bounding_box := by
  set p0 := c.point_at_pos 0 with hp0
  set rest := (bbox_candidate_ts c).map c.point_at_pos with hrest
  have hbox : c.bounding_box = ⟨rest.foldr pmin p0, rest.foldr pmax p0⟩ := rfl
  have hmem_rest : ∀ u, u ∈ bbox_candidate_ts c → c.point_at_pos u ∈ rest := by
    intro u hu
    exact List.mem_map.mpr ⟨u, hu, rfl⟩
  have hminx : ∀ u, (u = 0 ∨ u ∈ bbox_candidate_ts c) →
      (rest.foldr pmin p0).1 ≤ (c.point_at_pos u).1 := by
    intro u hu
    rcases hu with h | h
    · subst h
      exact (foldr_pmin_le_init rest p0).1
    · exact (foldr_pmin_le_mem rest p0 _ (hmem_rest u h)).1
  have hminy : ∀ u, (u = 0 ∨ u ∈ bbox_candidate_ts c) →
      (rest.foldr pmin p0).2 ≤ (c.point_at_pos u).2 := by
    intro u hu
    rcases hu with h | h
    · subst h
      exact (foldr_pmin_le_init rest p0).2
    · exact (foldr_pmin_le_mem rest p0 _ (hmem_rest u h)).2
  have hmaxx : ∀ u, (u = 0 ∨ u ∈ bbox_candidate_ts c) →
      (c.point_at_pos u).1 ≤ (rest.foldr pmax p0).1 := by
    intro u hu
    rcases hu with h | h
    · subst h
      exact (init_le_foldr_pmax rest p0).1
    · exact (mem_le_foldr_pmax rest p0 _ (hmem_rest u h)).1
  have hmaxy : ∀ u, (u = 0 ∨ u ∈ bbox_candidate_ts c) →
      (c.point_at_pos u).2 ≤ (rest.foldr pmax p0).2 := by
    intro u hu
    rcases hu with h | h
    · subst h
      exact (init_le_foldr_pmax rest p0).2
    · exact (mem_le_foldr_pmax rest p0 _ (hmem_rest u h)).2
  have hcand_of_x : ∀ u, (u = 0 ∨ u = 1 ∨ u ∈ extremitiesX c) →
      (u = 0 ∨ u ∈ bbox_candidate_ts c) := by
    intro u hu
    rcases hu with h | h | h
    · exact Or.inl h
    · exact Or.inr (h ▸ List.mem_cons_self 1 (extremitiesX c ++ extremitiesY c))
    · exact Or.inr (List.mem_cons_of_mem _ (List.mem_append.mpr (Or.inl h)))
  have hcand_of_y : ∀ u, (u = 0 ∨ u = 1 ∨ u ∈ extremitiesY c) →
      (u = 0 ∨ u ∈ bbox_candidate_ts c) := by
    intro u hu
    rcases hu with h | h | h
    · exact Or.inl h
    · exact Or.inr (h ▸ List.mem_cons_self 1 (extremitiesX c ++ extremitiesY c))
    · exact Or.inr (List.mem_cons_of_mem _ (List.mem_append.mpr (Or.inr h)))
  constructor
  · rw [hbox]
    obtain ⟨ux, hux, huxv⟩ :=
      basisR_ge_extreme c.start_point.1 c.cp1.1 c.cp2.1 c.end_point.1 t h0 h1
    obtain ⟨vx, hvx, hvxv⟩ :=
      basisR_le_extreme c.start_point.1 c.cp1.1 c.cp2.1 c.end_point.1 t h0 h1
    obtain ⟨uy, huy, huyv⟩ :=
      basisR_ge_extreme c.start_point.2 c.cp1.2 c.cp2.2 c.end_point.2 t h0 h1
    obtain ⟨vy, hvy, hvyv⟩ :=
      basisR_le_extreme c.start_point.2 c.cp1.2 c.cp2.2 c.end_point.2 t h0 h1
    refine ⟨?_, ?_, ?_, ?_⟩
    · exact le_trans (hminx ux (hcand_of_x ux hux)) huxv
    · exact le_trans hvxv (hmaxx vx (hcand_of_x vx hvx))
    · exact le_trans (hminy uy (hcand_of_y uy huy)) huyv
    · exact le_trans hvyv (hmaxy vy (hcand_of_y vy hvy))
  · rw [hbox]
    have hfast : c.fast_bounding_box =
        ⟨pmin (pmin (pmin c.start_point c.end_point) c.cp1) c.cp2,
         pmax (pmax (pmax c.start_point c.end_point) c.cp1) c.cp2⟩ := rfl
    rw [hfast]
    set fmin := pmin (pmin (pmin c.start_point c.end_point) c.cp1) c.cp2 with hfmin
    set fmax := pmax (pmax (pmax c.start_point c.end_point) c.cp1) c.cp2 with hfmax
    have hfmin1 : fmin.1 ≤ c.start_point.1 ∧ fmin.1 ≤ c.cp1.1 ∧ fmin.1 ≤ c.cp2.1 ∧
        fmin.1 ≤ c.end_point.1 := by
      refine ⟨?_, ?_, ?_, ?_⟩
      · exact le_trans (min_le_left _ _) (le_trans (min_le_left _ _) (min_le_left _ _))
      · exact le_trans (min_le_left _ _) (min_le_right _ _)
      · exact min_le_right _ _
      · exact le_trans (min_le_left _ _) (le_trans (min_le_left _ _) (min_le_right _ _))
    have hfmin2 : fmin.2 ≤ c.start_point.2 ∧ fmin.2 ≤ c.cp1.2 ∧ fmin.2 ≤ c.cp2.2 ∧
        fmin.2 ≤ c.end_point.2 := by
      refine ⟨?_, ?_, ?_, ?_⟩
      · exact le_trans (min_le_left _ _) (le_trans (min_le_left _ _) (min_le_left _ _))
      · exact le_trans (min_le_left _ _) (min_le_right _ _)
      · exact min_le_right _ _
      · exact le_trans (min_le_left _ _) (le_trans (min_le_left _ _) (min_le_right _ _))
    have hfmax1 : c.start_point.1 ≤ fmax.1 ∧ c.cp1.1 ≤ fmax.1 ∧ c.cp2.1 ≤ fmax.1 ∧
        c.end_point.1 ≤ fmax.1 := by
      refine ⟨?_, ?_, ?_, ?_⟩
      · exact le_trans (le_trans (le_max_left _ _) (le_max_left _ _)) (le_max_left _ _)
      · exact le_trans (le_max_right _ _) (le_max_left _ _)
      · exact le_max_right _ _
      · exact le_trans (le_trans (le_max_right _ _) (le_max_left _ _)) (le_max_left _ _)
    have hfmax2 : c.start_point.2 ≤ fmax.2 ∧ c.cp1.2 ≤ fmax.2 ∧ c.cp2.2 ≤ fmax.2 ∧
        c.end_point.2 ≤ fmax.2 := by
      refine ⟨?_, ?_, ?_, ?_⟩
      · exact le_trans (le_trans (le_max_left _ _) (le_max_left _ _)) (le_max_left _ _)
      · exact le_trans (le_max_right _ _) (le_max_left _ _)
      · exact le_max_right _ _
      · exact le_trans (le_trans (le_max_right _ _) (le_max_left _ _)) (le_max_left _ _)
    have hpt_bound : ∀ u, 0 ≤ u → u ≤ 1 →
        (fmin.1 ≤ (c.point_at_pos u).1 ∧ fmin.2 ≤ (c.point_at_pos u).2) ∧
          ((c.point_at_pos u).1 ≤ fmax.1 ∧ (c.point_at_pos u).2 ≤ fmax.2) := by
      intro u hu0 hu1
      refine ⟨⟨?_, ?_⟩, ?_, ?_⟩
      · exact basisR_ge_of_le _ _ _ _ u fmin.1 hu0 hu1 hfmin1.1 hfmin1.2.1 hfmin1.2.2.1
          hfmin1.2.2.2
      · exact basisR_ge_of_le _ _ _ _ u fmin.2 hu0 hu1 hfmin2.1 hfmin2.2.1 hfmin2.2.2.1
          hfmin2.2.2.2
      · exact basisR_le_of_ge _ _ _ _ u fmax.1 hu0 hu1 hfmax1.1 hfmax1.2.1 hfmax1.2.2.1
          hfmax1.2.2.2
      · exact basisR_le_of_ge _ _ _ _ u fmax.2 hu0 hu1 hfmax2.1 hfmax2.2.1 hfmax2.2.2.1
          hfmax2.2.2.2
    have hrest_bound : ∀ p ∈ rest,
        (fmin.1 ≤ p.1 ∧ fmin.2 ≤ p.2) ∧ (p.1 ≤ fmax.1 ∧ p.2 ≤ fmax.2) := by
      intro p hp
      obtain ⟨u, hu, hup⟩ := List.mem_map.mp hp
      obtain ⟨hu0, hu1⟩ := bbox_candidate_ts_mem_Icc c u hu
      exact hup ▸ hpt_bound u hu0 hu1
    have hinit_bound := hpt_bound 0 (le_refl 0) zero_le_one
    have hlo := le_foldr_pmin rest p0 fmin.1 fmin.2 hinit_bound.1
      fun p hp => (hrest_bound p hp).1
    have hhi := foldr_pmax_le rest p0 fmax.1 fmax.2 hinit_bound.2
      fun p hp => (hrest_bound p hp).2
    exact ⟨hlo.1, hlo.2, hhi.1, hhi.2⟩

/-- C6 witness: the containment at the curve with hull (0,0), (1,2), (2,-1),
(3,1) and parameter one half. -/
theorem bounding_box_sound_witness :
    (CubicBez.mk (0, 0) (1, 2) (2, -1) (3, 1)).bounding_box.contains_point
        ((CubicBez.mk (0, 0) (1, 2) (2, -1) (3, 1)).point_at_pos 0.5) ∧
      (CubicBez.mk (0, 0) (1, 2) (2, -1) (3, 1)).fast_bounding_box.contains_bounds
        (CubicBez.mk (0, 0) (1, 2) (2, -1) (3, 1)).bounding_box :=
  bounding_box_sound (CubicBez.mk (0, 0) (1, 2) (2, -1) (3, 1)) 0.5 (by norm_num) (by norm_num)

end
